import Mathlib

/-!
Verification of the dependency-analysis service (`dependency-analysis-service/main.py`).

The Python service is shallowly embedded: pure string/list manipulation is
translated directly; I/O effects (HTTP download, subprocess invocation,
file reads, wall-clock times) are supplied as explicit environment values,
and the in-memory job store is an association list with Python-dict
insertion-order semantics.  The three regular expressions in the source are
specialised to executable matchers that implement Python `re.search`
semantics (leftmost match, greedy quantifiers, `re.IGNORECASE` on the
escaped literal) for those concrete patterns.
-/

/-- Python `str.isspace`-style whitespace, as used by `str.strip`, `str.lstrip`
and the regex class `\s` (ASCII subset, which is all that build-tool output and
descriptor files contain). -/
def pyIsSpace (c : Char) : Bool :=
  c = ' ' || c = '\t' || c = '\n' || c = '\r' || c = '\x0b' || c = '\x0c'

/-- The single-quote character (written via its code point). -/
def squote : Char := Char.ofNat 39

/-- Either quote character, the regex class `['"]`. -/
def isQuote (c : Char) : Bool := c = '"' || c = squote

/-- Python `str.strip()`: drop leading and trailing whitespace. -/
def pyStrip (s : String) : String :=
  (((s.data.dropWhile pyIsSpace).reverse.dropWhile pyIsSpace).reverse).asString

/-- Python `needle in hay` substring test on strings. -/
def pyIn (needle hay : String) : Bool :=
  hay.data.tails.any (fun t => needle.data.isPrefixOf t)

/-- Split a character list at every occurrence of `c`, keeping empty pieces —
the semantics of Python `str.split(c)`. -/
def splitChar (c : Char) : List Char → List (List Char)
  | [] => [[]]
  | x :: xs =>
    if x = c then [] :: splitChar c xs
    else
      match splitChar c xs with
      | ys :: rest => (x :: ys) :: rest
      | [] => [[x]]

/-- Python `text.split(chr(10))` as used on tool output and file contents. -/
def pySplitLines (s : String) : List String :=
  (splitChar '\n' s.data).map List.asString

/-- Python `str.lower()` (ASCII subset). -/
def pyLower (s : String) : String :=
  (s.data.map Char.toLower).asString

/-- Python `s.startswith(pre)`. -/
def strStartsWith (s pre : String) : Bool :=
  pre.data.isPrefixOf s.data

/-- `DependencyMatch` (pydantic model in the source). -/
structure DependencyMatch where
  file_path : String
  current_version : String
  parent_dependency : Option String
  parent_version : Option String
  dependency_path : List String
  line_context : String
deriving DecidableEq, Repr

/-- Match a literal character list case-insensitively at the head of the input
(`re.IGNORECASE` applied to an `re.escape`d literal); returns the remainder on
success. -/
def matchLitCI : List Char → List Char → Option (List Char)
  | [], cs => some cs
  | _, [] => none
  | l :: ls, c :: cs => if c.toLower = l.toLower then matchLitCI ls cs else none

/-- Try a position-anchored matcher at every start position, left to right:
`re.search` semantics. -/
def searchIdx (f : List Char → Option α) : List Char → Option α
  | [] => f []
  | c :: cs =>
    match f (c :: cs) with
    | some r => some r
    | none => searchIdx f cs

/-- Anchored matcher for `<lit>\s*=\s*['"]([^'"]+)['"]` (patterns 1 and 2 of
`analyze_gradle_files_directly`, with `lit` the escaped literal); returns the
captured version.  All quantifiers here are greedy and their continuations are
excluded from the repeated class, so the greedy expansion is the only one. -/
def patAssignAt (lit : List Char) (cs : List Char) : Option String :=
  match matchLitCI lit cs with
  | none => none
  | some rest =>
    match rest.dropWhile pyIsSpace with
    | '=' :: rest2 =>
      match rest2.dropWhile pyIsSpace with
      | q :: rest3 =>
        if isQuote q then
          let v := rest3.takeWhile (fun c => !(isQuote c))
          if v.isEmpty then none
          else
            match rest3.dropWhile (fun c => !(isQuote c)) with
            | q2 :: _ => if isQuote q2 then some v.asString else none
            | [] => none
        else none
      | [] => none
    | _ => none

/-- Anchored matcher for `(<lit>[^:]*):([^:]*):([^\s'"]+)` (pattern 3 of
`analyze_gradle_files_directly`); returns the three captured groups, the first
taken from the original characters (case preserved). -/
def patGAVAt (lit : List Char) (cs : List Char) : Option (String × String × String) :=
  match matchLitCI lit cs with
  | none => none
  | some rest =>
    let g2 := rest.takeWhile (fun c => c ≠ ':')
    match rest.dropWhile (fun c => c ≠ ':') with
    | ':' :: rest2 =>
      let a := rest2.takeWhile (fun c => c ≠ ':')
      match rest2.dropWhile (fun c => c ≠ ':') with
      | ':' :: rest3 =>
        let v := rest3.takeWhile (fun c => !(pyIsSpace c) && !(isQuote c))
        if v.isEmpty then none
        else some (((cs.take lit.length) ++ g2).asString, a.asString, v.asString)
      | _ => none
    | _ => none

/-- `re.search` for pattern 1, `rf'{name}Version\s*=\s*[\'"]([^\'"]+)[\'"]'`. -/
def tryPat1 (dep line : String) : Option String :=
  searchIdx (patAssignAt (dep.data ++ "Version".data)) line.data

/-- `re.search` for pattern 2, `rf'{name}\s*=\s*[\'"]([^\'"]+)[\'"]'`. -/
def tryPat2 (dep line : String) : Option String :=
  searchIdx (patAssignAt dep.data) line.data

/-- `re.search` for pattern 3, `rf'({name}[^:]*):([^:]*):([^\s\'"]+)'`. -/
def tryPat3 (dep line : String) : Option (String × String × String) :=
  searchIdx (patGAVAt dep.data) line.data

/-- One line of the static declaration scan: each of the three patterns is
tried (`re.search`) and every pattern that matches appends a record — the
source loop has no `break`. -/
def scanStaticLine (dep rel : String) (ln : Nat) (line : String) : List DependencyMatch :=
  (match tryPat1 dep line with
   | some v => [⟨rel, v, none, none, [dep ++ ":" ++ v],
                 "Line " ++ toString ln ++ ": " ++ pyStrip line⟩]
   | none => []) ++
  (match tryPat2 dep line with
   | some v => [⟨rel, v, none, none, [dep ++ ":" ++ v],
                 "Line " ++ toString ln ++ ": " ++ pyStrip line⟩]
   | none => []) ++
  (match tryPat3 dep line with
   | some gav => [⟨rel, gav.2.2, none, none, [gav.1 ++ ":" ++ gav.2.1],
                   "Line " ++ toString ln ++ ": " ++ pyStrip line⟩]
   | none => [])

/-- A descriptor file as seen by the static scanner: its path relative to the
repository root and its content (`none` models a read that raises, which the
source logs and skips). -/
structure GradleFile where
  relative_path : String
  content : Option String
deriving DecidableEq, Repr

/-- Static scan of one descriptor file: lines enumerated from 1. -/
def staticFileMatches (dep : String) (f : GradleFile) : List DependencyMatch :=
  match f.content with
  | none => []
  | some content =>
    ((pySplitLines content).enum).flatMap
      (fun p => scanStaticLine dep f.relative_path (p.1 + 1) p.2)

/-- `DependencyAnalyzer.analyze_gradle_files_directly`. -/
def analyze_gradle_files_directly (files : List GradleFile) (dep : String) :
    List DependencyMatch :=
  files.foldl (fun acc f => acc ++ staticFileMatches dep f) []

/-- Anchored matcher for the tree-line pattern `([^:]+):([^:]+):([^:\s]+)`
(`extract_dependency_info_from_line`); the cleaned line contains no
whitespace, but the class is kept faithful. -/
def gavAt (cs : List Char) : Option (String × String × String) :=
  let g := cs.takeWhile (fun c => c ≠ ':')
  if g.isEmpty then none
  else
    match cs.dropWhile (fun c => c ≠ ':') with
    | ':' :: rest2 =>
      let a := rest2.takeWhile (fun c => c ≠ ':')
      if a.isEmpty then none
      else
        match rest2.dropWhile (fun c => c ≠ ':') with
        | ':' :: rest3 =>
          let v := rest3.takeWhile (fun c => c ≠ ':' && !(pyIsSpace c))
          if v.isEmpty then none else some (g.asString, a.asString, v.asString)
        | _ => none
    | _ => none

/-- `re.search(r'([^:]+):([^:]+):([^:\s]+)', clean_line)`. -/
def searchGAV : List Char → Option (String × String × String)
  | [] => none
  | c :: cs =>
    match gavAt (c :: cs) with
    | some r => some r
    | none => searchGAV cs

/-- Tree-drawing characters removed by `re.sub(r'[+\-\\\|\s]+', '', line)`. -/
def isTreeChar (c : Char) : Bool :=
  c = '+' || c = '-' || c = '\\' || c = '|' || pyIsSpace c

/-- `DependencyAnalyzer.extract_dependency_info_from_line`. -/
def extract_dependency_info_from_line (line dep config : String)
    (current_path : List String) : Option DependencyMatch :=
  let clean_line := line.data.filter (fun c => !(isTreeChar c))
  match searchGAV clean_line with
  | none => none
  | some gav =>
    let full_name := gav.1 ++ ":" ++ gav.2.1
    if pyIn (pyLower dep) (pyLower full_name) || pyIn (pyLower dep) (pyLower gav.2.1) then
      let indent_level := (line.data.takeWhile pyIsSpace).length
      let pd_path :=
        if indent_level > 0 && !current_path.isEmpty then
          (current_path.getLast?, current_path ++ [full_name])
        else (none, [full_name])
      some ⟨"gradle_tree_" ++ config, gav.2.2, pd_path.1, none, pd_path.2, pyStrip line⟩
    else none

/-- Matches contributed by one line of tree output inside
`parse_dependency_tree`'s loop (skip blank/separator lines, substring-check
the target, then extract). -/
def treeLineMatches (dep config : String) (current_path : List String)
    (line : String) : List DependencyMatch :=
  if pyStrip line = "" || strStartsWith line "----" then []
  else if pyIn (pyLower dep) (pyLower line) then
    match extract_dependency_info_from_line line dep config current_path with
    | some m => [m]
    | none => []
  else []

/-- `DependencyAnalyzer.parse_dependency_tree`.  `current_path` is initialised
to `[]` before the loop and — exactly as in the source — never updated. -/
def parse_dependency_tree (tree_output dep config : String) : List DependencyMatch :=
  let lines := pySplitLines tree_output
  let current_path : List String := []
  lines.foldl (fun acc line => acc ++ treeLineMatches dep config current_path line) []

/-- The dict key `f"{match.file_path}_{match.current_version}"` used by
`merge_duplicate_matches`. -/
def matchKey (m : DependencyMatch) : String :=
  m.file_path ++ "_" ++ m.current_version

/-- Python truthiness of an optional string (`None` and `""` are falsy). -/
def isTruthy : Option String → Bool
  | none => false
  | some s => !(s == "")

/-- Merging a later duplicate `m` into the stored record (the `else` branch of
`merge_duplicate_matches`' loop). -/
def mergeInto (existing m : DependencyMatch) : DependencyMatch :=
  let e1 :=
    if isTruthy m.parent_dependency && !(isTruthy existing.parent_dependency) then
      { existing with parent_dependency := m.parent_dependency }
    else existing
  let e2 :=
    if isTruthy m.parent_version && !(isTruthy e1.parent_version) then
      { e1 with parent_version := m.parent_version }
    else e1
  if e2.dependency_path.length < m.dependency_path.length then
    { e2 with dependency_path := m.dependency_path }
  else e2

/-- One step of `merge_duplicate_matches`' loop over a Python dict, modelled
as an insertion-ordered association list. -/
def insertMerge (acc : List (String × DependencyMatch)) (m : DependencyMatch) :
    List (String × DependencyMatch) :=
  if acc.any (fun p => p.1 == matchKey m) then
    acc.map (fun p => if p.1 == matchKey m then (p.1, mergeInto p.2 m) else p)
  else acc ++ [(matchKey m, m)]

/-- `DependencyAnalyzer.merge_duplicate_matches`. -/
def merge_duplicate_matches (ms : List DependencyMatch) : List DependencyMatch :=
  (ms.foldl insertMerge []).map Prod.snd

/-- The candidates a key collects: the input matches whose dict key is `k`. -/
def cands (k : String) (L : List DependencyMatch) : List DependencyMatch :=
  L.filter (fun m => matchKey m == k)

/-- Lookup in the association list modelling `merge_duplicate_matches`' dict. -/
def entGet? (acc : List (String × DependencyMatch)) (k : String) : Option DependencyMatch :=
  (acc.find? (fun p => p.1 == k)).map (fun p => p.2)

/-- The record a key holds after merging the candidate list `cs` into an
optional pre-existing base. -/
def mergedOf (base : Option DependencyMatch) (cs : List DependencyMatch) :
    Option DependencyMatch :=
  match base, cs with
  | some e, cs => some (cs.foldl mergeInto e)
  | none, [] => none
  | none, c :: cs => some (cs.foldl mergeInto c)

/-- Key consistency: every stored entry's key is its record's dict key. -/
def KeyOk (acc : List (String × DependencyMatch)) : Prop :=
  ∀ p ∈ acc, p.1 = matchKey p.2

/-- Outcome of one `subprocess.run` invocation of the build tool
(`analyze_gradle_dependencies`' try block): a completed process with its exit
code and captured streams, or one of the exceptions the source catches. -/
inductive ConfigOutcome where
  | completed (returncode : Int) (stdout : String) (stderr : String)
  | timeoutExpired
  | fileNotFound
  | otherError (msg : String)
deriving DecidableEq, Repr

/-- The fixed configuration list of `analyze_gradle_dependencies`. -/
def configurations : List String :=
  ["compileClasspath", "runtimeClasspath", "testCompileClasspath"]

/-- External behaviour of the build tool, one outcome per configuration name. -/
structure AnalyzeEnv where
  outcome : String → ConfigOutcome

/-- A configuration's failure as listed in the source's failure handling:
non-zero exit, `TimeoutExpired`, `FileNotFoundError`, or any other exception. -/
def configFailed : ConfigOutcome → Bool
  | .completed rc _ _ => !(rc == 0)
  | .timeoutExpired => true
  | .fileNotFound => true
  | .otherError _ => true

/-- Matches contributed by one configuration: the tree output is parsed only
when the subprocess completed with exit code 0; every failure is logged and
contributes nothing. -/
def configTreeMatches (env : AnalyzeEnv) (dep config : String) : List DependencyMatch :=
  match env.outcome config with
  | .completed rc out _ => if rc == 0 then parse_dependency_tree out dep config else []
  | _ => []

/-- `DependencyAnalyzer.analyze_gradle_dependencies`: tree matches for the
three configurations, then the static file scan, then deduplication. -/
def analyze_gradle_dependencies (env : AnalyzeEnv) (files : List GradleFile)
    (dep : String) : List DependencyMatch :=
  let ms := configurations.foldl (fun acc c => acc ++ configTreeMatches env dep c) []
  let ms := ms ++ analyze_gradle_files_directly files dep
  merge_duplicate_matches ms

/-- A zip archive as received from the hosting API: it extracts cleanly, the
`ZipFile` constructor raises before the scratch directory is created, or
`extractall` raises midway after creating the directory. -/
inductive ZipArchive where
  | ok (entries : List String)
  | badOpen
  | badMid (extracted : List String)
deriving DecidableEq, Repr

/-- An HTTP response from the zipball endpoint. -/
structure HttpResponse where
  status : Nat
  body : ZipArchive
deriving DecidableEq, Repr

/-- Network behaviour for one clone attempt: the response of the `main`-branch
request and of the `master`-branch request (`Except.error` models
`requests.get` raising). -/
structure CloneEnv where
  mainResp : Except String HttpResponse
  masterResp : Except String HttpResponse
deriving Repr

/-- The try-block of `clone_repository`: result of the block (`Except.error`
is a raised exception) paired with whether the scratch directory exists at the
moment the block exits or raises. -/
def cloneBody (env : CloneEnv) : Except String (List String) × Bool :=
  match env.mainResp with
  | .error e => (.error e, false)
  | .ok resp1 =>
    match (if resp1.status ≠ 200 then env.masterResp else .ok resp1) with
    | .error e => (.error e, false)
    | .ok resp =>
      if resp.status = 200 then
        match resp.body with
        | .ok entries => (.ok entries, true)
        | .badOpen => (.error "BadZipFile", false)
        | .badMid _ => (.error "BadZipFile", true)
      else
        (.error ("Failed to download repository: HTTP " ++ toString resp.status), false)

/-- `DependencyAnalyzer.clone_repository`: the try-block wrapped in the
`except` handler, which removes the scratch directory when it exists and
re-raises.  Second component: whether the scratch directory exists after the
call. -/
def clone_repository (env : CloneEnv) : Except String (List String) × Bool :=
  match cloneBody env with
  | (.ok entries, d) => (.ok entries, d)
  | (.error e, d) => (.error e, if d then false else false)

/-- `AnalysisResult` (pydantic model in the source); times are rationals.
The source field `matches` is named `found_matches` here because `matches` is
a reserved word in Lean. -/
structure AnalysisResult where
  repository : String
  dependency_name : String
  job_id : String
  status : String
  gradle_files_found : List String
  found_matches : List DependencyMatch
  error : Option String
  analysis_time_seconds : Option ℚ
deriving DecidableEq, Repr

/-- The job record created by `start_analysis` before scheduling. -/
def initialResult (repository dep job_id : String) : AnalysisResult :=
  ⟨repository, dep, job_id, "processing", [], [], none, none⟩

/-- All external effects one run of the background task observes. -/
structure JobEnv where
  clone : CloneEnv
  gradle_files : List GradleFile
  analyze : AnalyzeEnv
  startTime : ℚ
  endTime : ℚ

/-- `run_analysis`, the background task, as a transformer of the job record it
owns: clone, scan (the files found are an environment input), the
no-descriptor-files early return, analysis, and the terminal-state writes of
both the success and the exception path. -/
def run_analysis (r : AnalysisResult) (env : JobEnv) : AnalysisResult :=
  match (clone_repository env.clone).1 with
  | .error e =>
    { r with status := "failed", error := some e,
             analysis_time_seconds := some (env.endTime - env.startTime) }
  | .ok _ =>
    let r1 := { r with gradle_files_found := env.gradle_files.map GradleFile.relative_path }
    if env.gradle_files.isEmpty then
      { r1 with status := "completed", error := some "No Gradle files found in repository" }
    else
      { r1 with status := "completed",
                found_matches := analyze_gradle_dependencies env.analyze env.gradle_files r.dependency_name,
                analysis_time_seconds := some (env.endTime - env.startTime) }

/-- The predicate for the early-return path: clone succeeded and the scanner
found no descriptor files. -/
def noFilesPath (env : JobEnv) : Prop :=
  (∃ es, (clone_repository env.clone).1 = Except.ok es) ∧ env.gradle_files = []

/-- The in-memory `jobs_storage` dict, insertion-ordered. -/
abbrev Store := List (String × AnalysisResult)

/-- Python dict assignment `store[k] = v`. -/
def storeSet (s : Store) (k : String) (v : AnalysisResult) : Store :=
  if s.any (fun p => p.1 == k) then
    s.map (fun p => if p.1 == k then (k, v) else p)
  else s ++ [(k, v)]

/-- Python dict lookup, `store[k]` / `k in store`. -/
def storeGet? (s : Store) (k : String) : Option AnalysisResult :=
  (s.find? (fun p => p.1 == k)).map (fun p => p.2)

/-- The body returned by `POST /analyze`. -/
structure StartResponse where
  job_id : String
  status : String
  check_url : String
deriving DecidableEq, Repr

/-- `start_analysis`: create the initial record, insert it into the store,
then return the job id to the caller (the background task is scheduled but
runs later). -/
def start_analysis (s : Store) (repository dep job_id : String) :
    Store × StartResponse :=
  let result := initialResult repository dep job_id
  (storeSet s job_id result, ⟨job_id, "processing", "/status/" ++ job_id⟩)

/-- `get_analysis_status`: 404 when the id is unknown, otherwise the record. -/
def get_analysis_status (s : Store) (job_id : String) : Except Nat AnalysisResult :=
  match storeGet? s job_id with
  | none => .error 404
  | some r => .ok r

/-- The operations that touch `jobs_storage` during the process lifetime:
another submission, or a background task writing its terminal state. -/
inductive StoreOp where
  | submit (repository dep job_id : String)
  | runJob (job_id : String) (env : JobEnv)

/-- Effect of one operation on the store.  A background task reads the record
it owns and writes it back; it never deletes a key. -/
def applyOp (s : Store) : StoreOp → Store
  | .submit repository dep id => (start_analysis s repository dep id).1
  | .runJob id env =>
    match storeGet? s id with
    | none => s
    | some r => storeSet s id (run_analysis r env)

/-- Sample network environment: the `main`-branch request succeeds with a
clean empty archive. -/
def cloneOkEnv : CloneEnv :=
  ⟨Except.ok ⟨200, ZipArchive.ok []⟩, Except.ok ⟨200, ZipArchive.ok []⟩⟩

/-- Sample network environment: 404 on `main`, 500 on `master`. -/
def cloneFailEnv : CloneEnv :=
  ⟨Except.ok ⟨404, ZipArchive.ok []⟩, Except.ok ⟨500, ZipArchive.ok []⟩⟩

/-- Sample descriptor file declaring a version for `mylib`. -/
def sampleFiles : List GradleFile := [⟨"build.gradle", some "mylib = \"2.0\""⟩]

/-- Sample build-tool behaviour: `runtimeClasspath` resolves and prints one
tree line, every other configuration times out. -/
def sampleAnalyzeEnv : AnalyzeEnv :=
  ⟨fun c => if c == "runtimeClasspath" then ConfigOutcome.completed 0 "org.x:mylib:1.0" ""
            else ConfigOutcome.timeoutExpired⟩

/-- Sample build-tool behaviour: the tool binary is missing entirely. -/
def noToolEnv : AnalyzeEnv := ⟨fun _ => ConfigOutcome.fileNotFound⟩

/-- A sample match record used to instantiate merge theorems. -/
def sampleMatch : DependencyMatch := ⟨"f", "1.0", none, none, ["a"], "x"⟩

/-! ## General helper lemmas -/

theorem mem_foldl_append {α β : Type} (f : α → List β) :
    ∀ (L : List α) (acc : List β) (b : β),
      b ∈ L.foldl (fun acc x => acc ++ f x) acc ↔ b ∈ acc ∨ ∃ x ∈ L, b ∈ f x := by
  intro L
  induction L with
  | nil => intro acc b; simp
  | cons x L ih =>
    intro acc b
    rw [List.foldl_cons, ih]
    simp [List.mem_append, or_assoc]

/-! ## Lemmas about `mergeInto` -/

theorem mergeInto_eq (e m : DependencyMatch) :
    mergeInto e m =
      ⟨e.file_path, e.current_version,
       (if isTruthy m.parent_dependency && !(isTruthy e.parent_dependency) then
          m.parent_dependency else e.parent_dependency),
       (if isTruthy m.parent_version && !(isTruthy e.parent_version) then
          m.parent_version else e.parent_version),
       (if e.dependency_path.length < m.dependency_path.length then
          m.dependency_path else e.dependency_path),
       e.line_context⟩ := by
  obtain ⟨fp, cv, pd, pv, dp, lc⟩ := e
  unfold mergeInto
  dsimp only
  split_ifs <;> rfl

theorem matchKey_mergeInto (e m : DependencyMatch) :
    matchKey (mergeInto e m) = matchKey e := by
  rw [mergeInto_eq]; rfl

theorem mergeInto_path_length (e m : DependencyMatch) :
    (mergeInto e m).dependency_path.length =
      max e.dependency_path.length m.dependency_path.length := by
  rw [mergeInto_eq]
  dsimp only
  split_ifs with h
  · exact (Nat.max_eq_right (Nat.le_of_lt h)).symm
  · exact (Nat.max_eq_left (Nat.le_of_not_lt h)).symm

theorem mergeInto_path_or (e m : DependencyMatch) :
    (mergeInto e m).dependency_path = e.dependency_path ∨
      (mergeInto e m).dependency_path = m.dependency_path := by
  rw [mergeInto_eq]
  dsimp only
  split_ifs
  · exact Or.inr rfl
  · exact Or.inl rfl

theorem mergeInto_pd_truthy (e m : DependencyMatch) :
    isTruthy (mergeInto e m).parent_dependency =
      (isTruthy e.parent_dependency || isTruthy m.parent_dependency) := by
  rw [mergeInto_eq]
  dsimp only
  split_ifs with h
  · simp only [Bool.and_eq_true, Bool.not_eq_true'] at h
    simp [h.1, h.2]
  · simp only [Bool.and_eq_true, Bool.not_eq_true'] at h
    cases hm : isTruthy m.parent_dependency with
    | false => simp
    | true =>
      cases he : isTruthy e.parent_dependency with
      | false => exact absurd ⟨hm, he⟩ h
      | true => simp [he]

theorem mergeInto_pv_truthy (e m : DependencyMatch) :
    isTruthy (mergeInto e m).parent_version =
      (isTruthy e.parent_version || isTruthy m.parent_version) := by
  rw [mergeInto_eq]
  dsimp only
  split_ifs with h
  · simp only [Bool.and_eq_true, Bool.not_eq_true'] at h
    simp [h.1, h.2]
  · simp only [Bool.and_eq_true, Bool.not_eq_true'] at h
    cases hm : isTruthy m.parent_version with
    | false => simp
    | true =>
      cases he : isTruthy e.parent_version with
      | false => exact absurd ⟨hm, he⟩ h
      | true => simp [he]

theorem mergeInto_pd_or (e m : DependencyMatch) :
    (mergeInto e m).parent_dependency = e.parent_dependency ∨
      (mergeInto e m).parent_dependency = m.parent_dependency := by
  rw [mergeInto_eq]
  dsimp only
  split_ifs
  · exact Or.inr rfl
  · exact Or.inl rfl

theorem mergeInto_file_path (e m : DependencyMatch) :
    (mergeInto e m).file_path = e.file_path := by rw [mergeInto_eq]

theorem mergeInto_current_version (e m : DependencyMatch) :
    (mergeInto e m).current_version = e.current_version := by rw [mergeInto_eq]

theorem mergeInto_line_context (e m : DependencyMatch) :
    (mergeInto e m).line_context = e.line_context := by rw [mergeInto_eq]

/-! ## Lemmas about `insertMerge` and the dict fold -/

theorem fst_insertMerge (acc : List (String × DependencyMatch)) (m : DependencyMatch) :
    (insertMerge acc m).map Prod.fst =
      if acc.any (fun p => p.1 == matchKey m) then acc.map Prod.fst
      else acc.map Prod.fst ++ [matchKey m] := by
  unfold insertMerge
  split
  · rw [List.map_map]
    apply List.map_congr_left
    intro p _
    simp only [Function.comp]
    split <;> rfl
  · rw [List.map_append]
    rfl

theorem keyOk_insertMerge {acc : List (String × DependencyMatch)} {m : DependencyMatch}
    (h : KeyOk acc) : KeyOk (insertMerge acc m) := by
  unfold insertMerge
  split
  · intro p hp
    rw [List.mem_map] at hp
    obtain ⟨q, hq, hpq⟩ := hp
    subst hpq
    split
    · dsimp only
      rw [matchKey_mergeInto]
      exact h q hq
    · exact h q hq
  · intro p hp
    rw [List.mem_append] at hp
    rcases hp with hp | hp
    · exact h p hp
    · simp only [List.mem_singleton] at hp
      subst hp
      rfl

theorem entGet_insertMerge_self (acc : List (String × DependencyMatch))
    (m : DependencyMatch) :
    entGet? (insertMerge acc m) (matchKey m) =
      some (match entGet? acc (matchKey m) with
            | some e => mergeInto e m
            | none => m) := by
  unfold insertMerge
  split
  · next h =>
    rw [List.any_eq_true] at h
    obtain ⟨p0, hp0, hkey⟩ := h
    unfold entGet?
    rw [List.find?_map]
    have hpred : ((fun p : String × DependencyMatch => p.1 == matchKey m) ∘
        (fun p : String × DependencyMatch =>
          if p.1 == matchKey m then (p.1, mergeInto p.2 m) else p)) =
        (fun p => p.1 == matchKey m) := by
      funext p
      simp only [Function.comp]
      split <;> rfl
    rw [hpred]
    have hsome : (acc.find? (fun p => p.1 == matchKey m)).isSome := by
      rw [List.find?_isSome]
      exact ⟨p0, hp0, hkey⟩
    obtain ⟨q, hq⟩ := Option.isSome_iff_exists.mp hsome
    have hqk : (q.1 == matchKey m) = true := by simpa using List.find?_some hq
    rw [hq]
    simp only [Option.map_some']
    rw [if_pos hqk]
  · next h =>
    unfold entGet?
    rw [List.find?_append]
    have hnone : acc.find? (fun p => p.1 == matchKey m) = none := by
      rw [List.find?_eq_none]
      intro p hp hkey
      exact h (List.any_eq_true.mpr ⟨p, hp, hkey⟩)
    rw [hnone]
    simp

theorem entGet_insertMerge_ne (acc : List (String × DependencyMatch))
    (m : DependencyMatch) (k : String) (h : matchKey m ≠ k) :
    entGet? (insertMerge acc m) k = entGet? acc k := by
  unfold insertMerge
  split
  · unfold entGet?
    rw [List.find?_map]
    have hpred : ((fun p : String × DependencyMatch => p.1 == k) ∘
        (fun p : String × DependencyMatch =>
          if p.1 == matchKey m then (p.1, mergeInto p.2 m) else p)) =
        (fun p => p.1 == k) := by
      funext p
      simp only [Function.comp]
      split <;> rfl
    rw [hpred]
    cases hf : acc.find? (fun p => p.1 == k) with
    | none => simp
    | some q =>
      have hqk : (q.1 == k) = true := by simpa using List.find?_some hf
      have hne : (q.1 == matchKey m) = false := by
        rw [beq_eq_false_iff_ne]
        intro heq
        exact h (heq.symm.trans (by simpa using hqk))
      simp only [Option.map_some']
      rw [if_neg (by simp [hne])]
  · unfold entGet?
    rw [List.find?_append]
    have h2 : [(matchKey m, m)].find? (fun p => p.1 == k) = none := by
      have : (matchKey m == k) = false := beq_eq_false_iff_ne.mpr h
      simp [List.find?, this]
    rw [h2]
    simp

theorem cands_cons_eq (m : DependencyMatch) (L : List DependencyMatch) :
    cands (matchKey m) (m :: L) = m :: cands (matchKey m) L := by
  unfold cands
  rw [List.filter_cons]
  simp

theorem cands_cons_ne (m : DependencyMatch) (L : List DependencyMatch) (k : String)
    (h : matchKey m ≠ k) : cands k (m :: L) = cands k L := by
  unfold cands
  rw [List.filter_cons]
  simp [h]

theorem entGet_foldl (L : List DependencyMatch) :
    ∀ (acc : List (String × DependencyMatch)) (k : String),
      entGet? (L.foldl insertMerge acc) k = mergedOf (entGet? acc k) (cands k L) := by
  induction L with
  | nil =>
    intro acc k
    have hc : cands k [] = [] := rfl
    rw [List.foldl_nil, hc]
    cases h : entGet? acc k <;> rfl
  | cons m L ih =>
    intro acc k
    rw [List.foldl_cons]
    by_cases hk : matchKey m = k
    · subst hk
      rw [ih, entGet_insertMerge_self, cands_cons_eq]
      cases h : entGet? acc (matchKey m) with
      | none => rfl
      | some e =>
        simp only [mergedOf]
        rw [List.foldl_cons]
    · rw [ih, entGet_insertMerge_ne _ _ _ hk, cands_cons_ne _ _ _ hk]

theorem keyOk_foldl (L : List DependencyMatch) :
    ∀ (acc : List (String × DependencyMatch)), KeyOk acc →
      KeyOk (L.foldl insertMerge acc) := by
  induction L with
  | nil => intro acc h; exact h
  | cons m L ih =>
    intro acc h
    rw [List.foldl_cons]
    exact ih _ (keyOk_insertMerge h)

theorem mem_keys_insertMerge (acc : List (String × DependencyMatch))
    (m : DependencyMatch) (k : String) :
    (k ∈ (insertMerge acc m).map Prod.fst) ↔
      k ∈ acc.map Prod.fst ∨ k = matchKey m := by
  rw [fst_insertMerge]
  split
  · next h =>
    constructor
    · exact Or.inl
    · rintro (hk | hk)
      · exact hk
      · subst hk
        rw [List.any_eq_true] at h
        obtain ⟨p, hp, hkey⟩ := h
        rw [List.mem_map]
        exact ⟨p, hp, by simpa using hkey⟩
  · rw [List.mem_append]
    simp

theorem nodup_keys_insertMerge {acc : List (String × DependencyMatch)}
    {m : DependencyMatch} (h : (acc.map Prod.fst).Nodup) :
    ((insertMerge acc m).map Prod.fst).Nodup := by
  rw [fst_insertMerge]
  split
  · exact h
  · next hany =>
    rw [List.nodup_append]
    refine ⟨h, List.nodup_singleton _, ?_⟩
    intro k hk hk2
    simp only [List.mem_singleton] at hk2
    subst hk2
    rw [List.mem_map] at hk
    obtain ⟨p, hp, hpk⟩ := hk
    exact hany (List.any_eq_true.mpr ⟨p, hp, by simpa using hpk⟩)

theorem nodup_keys_foldl (L : List DependencyMatch) :
    ∀ (acc : List (String × DependencyMatch)), (acc.map Prod.fst).Nodup →
      ((L.foldl insertMerge acc).map Prod.fst).Nodup := by
  induction L with
  | nil => intro acc h; exact h
  | cons m L ih =>
    intro acc h
    rw [List.foldl_cons]
    exact ih _ (nodup_keys_insertMerge h)

theorem mem_keys_foldl (L : List DependencyMatch) :
    ∀ (acc : List (String × DependencyMatch)) (k : String),
      (k ∈ (L.foldl insertMerge acc).map Prod.fst) ↔
        k ∈ acc.map Prod.fst ∨ k ∈ L.map matchKey := by
  induction L with
  | nil => intro acc k; simp
  | cons m L ih =>
    intro acc k
    rw [List.foldl_cons, ih, mem_keys_insertMerge]
    simp only [List.map_cons, List.mem_cons]
    tauto

theorem entGet_of_mem_nodup :
    ∀ (acc : List (String × DependencyMatch)) (p : String × DependencyMatch),
      (acc.map Prod.fst).Nodup → p ∈ acc → entGet? acc p.1 = some p.2 := by
  intro acc
  induction acc with
  | nil => intro p _ hp; cases hp
  | cons q t ih =>
    intro p hnd hp
    rw [List.map_cons, List.nodup_cons] at hnd
    rcases List.mem_cons.mp hp with hq | hp2
    · subst hq
      unfold entGet?
      rw [List.find?_cons_of_pos _ (by simp)]
      rfl
    · have hne : (q.1 == p.1) = false := by
        rw [beq_eq_false_iff_ne]
        intro heq
        exact hnd.1 (heq ▸ (List.mem_map.mpr ⟨p, hp2, rfl⟩))
      unfold entGet?
      rw [List.find?_cons_of_neg _ (by simp [hne])]
      exact ih p hnd.2 hp2

/-! ## Properties of `List.foldl mergeInto` over a candidate list -/

theorem foldl_mergeInto_file_path :
    ∀ (cs : List DependencyMatch) (c : DependencyMatch),
      (cs.foldl mergeInto c).file_path = c.file_path := by
  intro cs
  induction cs with
  | nil => intro c; rfl
  | cons m cs ih =>
    intro c
    rw [List.foldl_cons, ih, mergeInto_file_path]

theorem foldl_mergeInto_current_version :
    ∀ (cs : List DependencyMatch) (c : DependencyMatch),
      (cs.foldl mergeInto c).current_version = c.current_version := by
  intro cs
  induction cs with
  | nil => intro c; rfl
  | cons m cs ih =>
    intro c
    rw [List.foldl_cons, ih, mergeInto_current_version]

theorem foldl_mergeInto_line_context :
    ∀ (cs : List DependencyMatch) (c : DependencyMatch),
      (cs.foldl mergeInto c).line_context = c.line_context := by
  intro cs
  induction cs with
  | nil => intro c; rfl
  | cons m cs ih =>
    intro c
    rw [List.foldl_cons, ih, mergeInto_line_context]

theorem foldl_mergeInto_path_ge :
    ∀ (cs : List DependencyMatch) (c : DependencyMatch),
      ∀ m ∈ c :: cs,
        m.dependency_path.length ≤ (cs.foldl mergeInto c).dependency_path.length := by
  intro cs
  induction cs with
  | nil =>
    intro c m hm
    rw [List.mem_singleton] at hm
    subst hm
    exact Nat.le_refl _
  | cons m2 cs ih =>
    intro c m hm
    rw [List.foldl_cons]
    have hstep : ∀ x ∈ mergeInto c m2 :: cs,
        x.dependency_path.length ≤ ((cs.foldl mergeInto (mergeInto c m2))).dependency_path.length :=
      ih (mergeInto c m2)
    have hcm : (mergeInto c m2).dependency_path.length ≤
        (cs.foldl mergeInto (mergeInto c m2)).dependency_path.length :=
      hstep _ (List.mem_cons_self _ _)
    rcases List.mem_cons.mp hm with h1 | h1
    · subst h1
      refine Nat.le_trans ?_ hcm
      rw [mergeInto_path_length]
      exact Nat.le_max_left _ _
    · rcases List.mem_cons.mp h1 with h2 | h2
      · subst h2
        refine Nat.le_trans ?_ hcm
        rw [mergeInto_path_length]
        exact Nat.le_max_right _ _
      · exact hstep m (List.mem_cons_of_mem _ h2)

theorem foldl_mergeInto_path_mem :
    ∀ (cs : List DependencyMatch) (c : DependencyMatch),
      ∃ m ∈ c :: cs, (cs.foldl mergeInto c).dependency_path = m.dependency_path := by
  intro cs
  induction cs with
  | nil => intro c; exact ⟨c, List.mem_singleton_self _, rfl⟩
  | cons m2 cs ih =>
    intro c
    rw [List.foldl_cons]
    obtain ⟨m, hm, hpath⟩ := ih (mergeInto c m2)
    rcases List.mem_cons.mp hm with h1 | h1
    · subst h1
      rcases mergeInto_path_or c m2 with h2 | h2
      · exact ⟨c, List.mem_cons_self _ _, hpath.trans h2⟩
      · exact ⟨m2, List.mem_cons_of_mem _ (List.mem_cons_self _ _), hpath.trans h2⟩
    · exact ⟨m, List.mem_cons_of_mem _ (List.mem_cons_of_mem _ h1), hpath⟩

theorem foldl_mergeInto_pd_any :
    ∀ (cs : List DependencyMatch) (c : DependencyMatch),
      isTruthy (cs.foldl mergeInto c).parent_dependency =
        (c :: cs).any (fun m => isTruthy m.parent_dependency) := by
  intro cs
  induction cs with
  | nil => intro c; simp
  | cons m2 cs ih =>
    intro c
    rw [List.foldl_cons, ih (mergeInto c m2)]
    simp only [List.any_cons, mergeInto_pd_truthy]
    rw [Bool.or_assoc]

theorem foldl_mergeInto_pv_any :
    ∀ (cs : List DependencyMatch) (c : DependencyMatch),
      isTruthy (cs.foldl mergeInto c).parent_version =
        (c :: cs).any (fun m => isTruthy m.parent_version) := by
  intro cs
  induction cs with
  | nil => intro c; simp
  | cons m2 cs ih =>
    intro c
    rw [List.foldl_cons, ih (mergeInto c m2)]
    simp only [List.any_cons, mergeInto_pv_truthy]
    rw [Bool.or_assoc]

theorem foldl_mergeInto_pd_mem :
    ∀ (cs : List DependencyMatch) (c : DependencyMatch),
      ∃ m ∈ c :: cs, (cs.foldl mergeInto c).parent_dependency = m.parent_dependency := by
  intro cs
  induction cs with
  | nil => intro c; exact ⟨c, List.mem_singleton_self _, rfl⟩
  | cons m2 cs ih =>
    intro c
    rw [List.foldl_cons]
    obtain ⟨m, hm, hpd⟩ := ih (mergeInto c m2)
    rcases List.mem_cons.mp hm with h1 | h1
    · subst h1
      rcases mergeInto_pd_or c m2 with h2 | h2
      · exact ⟨c, List.mem_cons_self _ _, hpd.trans h2⟩
      · exact ⟨m2, List.mem_cons_of_mem _ (List.mem_cons_self _ _), hpd.trans h2⟩
    · exact ⟨m, List.mem_cons_of_mem _ (List.mem_cons_of_mem _ h1), hpd⟩

/-! ## Merge characterization -/

theorem keyOk_nil : KeyOk [] := by
  intro p hp
  cases hp

theorem insertMerge_of_not_mem (acc : List (String × DependencyMatch))
    (m : DependencyMatch) (h : matchKey m ∉ acc.map Prod.fst) :
    insertMerge acc m = acc ++ [(matchKey m, m)] := by
  unfold insertMerge
  rw [if_neg]
  intro hany
  rw [List.any_eq_true] at hany
  obtain ⟨p, hp, hkey⟩ := hany
  exact h (List.mem_map.mpr ⟨p, hp, by simpa using hkey⟩)

theorem foldl_insertMerge_nodup_id :
    ∀ (L : List DependencyMatch) (acc : List (String × DependencyMatch)),
      (∀ m ∈ L, matchKey m ∉ acc.map Prod.fst) → (L.map matchKey).Nodup →
      L.foldl insertMerge acc = acc ++ L.map (fun m => (matchKey m, m)) := by
  intro L
  induction L with
  | nil => intro acc _ _; simp
  | cons m L ih =>
    intro acc hd hn
    rw [List.foldl_cons, insertMerge_of_not_mem acc m (hd m (List.mem_cons_self _ _))]
    rw [List.map_cons, List.nodup_cons] at hn
    rw [ih (acc ++ [(matchKey m, m)]) ?_ hn.2]
    · simp
    · intro m2 hm2
      rw [List.map_append, List.mem_append]
      rintro (h1 | h1)
      · exact hd m2 (List.mem_cons_of_mem _ hm2) h1
      · simp only [List.map_singleton, List.mem_singleton] at h1
        exact hn.1 (h1 ▸ List.mem_map.mpr ⟨m2, hm2, rfl⟩)

theorem map_matchKey_merge (L : List DependencyMatch) :
    (merge_duplicate_matches L).map matchKey = (L.foldl insertMerge []).map Prod.fst := by
  unfold merge_duplicate_matches
  rw [List.map_map]
  apply List.map_congr_left
  intro p hp
  exact (keyOk_foldl L [] keyOk_nil p hp).symm

theorem nodup_matchKey_merge (L : List DependencyMatch) :
    ((merge_duplicate_matches L).map matchKey).Nodup := by
  rw [map_matchKey_merge]
  exact nodup_keys_foldl L [] (by simp)

theorem merge_of_nodup_keys (L : List DependencyMatch)
    (h : (L.map matchKey).Nodup) : merge_duplicate_matches L = L := by
  unfold merge_duplicate_matches
  rw [foldl_insertMerge_nodup_id L [] (by simp) h]
  rw [List.nil_append, List.map_map]
  have hcomp : (Prod.snd ∘ fun m : DependencyMatch => (matchKey m, m)) = id := by
    funext m
    rfl
  rw [hcomp, List.map_id]

theorem merge_mem_char (L : List DependencyMatch) (r : DependencyMatch)
    (hr : r ∈ merge_duplicate_matches L) :
    ∃ c cs, cands (matchKey r) L = c :: cs ∧ r = cs.foldl mergeInto c := by
  unfold merge_duplicate_matches at hr
  rw [List.mem_map] at hr
  obtain ⟨p, hp, hpr⟩ := hr
  have hkey : p.1 = matchKey p.2 := keyOk_foldl L [] keyOk_nil p hp
  have hnd := nodup_keys_foldl L [] (by simp)
  have hget : entGet? (L.foldl insertMerge []) p.1 = some p.2 :=
    entGet_of_mem_nodup _ p hnd hp
  rw [entGet_foldl L [] p.1] at hget
  subst hpr
  cases hc : cands (matchKey p.2) L with
  | nil =>
    rw [hkey, hc] at hget
    simp [mergedOf, entGet?] at hget
  | cons c cs =>
    rw [hkey, hc] at hget
    simp only [mergedOf, entGet?, List.find?_nil, Option.map_none', Option.some.injEq] at hget
    exact ⟨c, cs, rfl, hget.symm⟩

theorem cands_subset (k : String) (L : List DependencyMatch) :
    ∀ m ∈ cands k L, m ∈ L := by
  intro m hm
  exact List.mem_of_mem_filter hm

/-! ## Helpers for the orchestrator, parsers and store -/

theorem run_analysis_clone_error (r : AnalysisResult) (env : JobEnv) (e : String)
    (h : (clone_repository env.clone).1 = Except.error e) :
    run_analysis r env =
      { r with status := "failed", error := some e,
               analysis_time_seconds := some (env.endTime - env.startTime) } := by
  unfold run_analysis
  rw [h]

theorem run_analysis_clone_ok_nofiles (r : AnalysisResult) (env : JobEnv)
    (es : List String) (hok : (clone_repository env.clone).1 = Except.ok es)
    (hf : env.gradle_files = []) :
    run_analysis r env =
      { r with gradle_files_found := [], status := "completed",
               error := some "No Gradle files found in repository" } := by
  unfold run_analysis
  rw [hok, hf]
  rfl

theorem run_analysis_clone_ok_files (r : AnalysisResult) (env : JobEnv)
    (es : List String) (hok : (clone_repository env.clone).1 = Except.ok es)
    (hf : env.gradle_files ≠ []) :
    run_analysis r env =
      { r with gradle_files_found := env.gradle_files.map GradleFile.relative_path,
               status := "completed",
               found_matches :=
                 analyze_gradle_dependencies env.analyze env.gradle_files r.dependency_name,
               analysis_time_seconds := some (env.endTime - env.startTime) } := by
  unfold run_analysis
  rw [hok]
  cases h2 : env.gradle_files with
  | nil => exact absurd h2 hf
  | cons f fs => rfl

theorem extract_nil_path (line dep config : String) (m : DependencyMatch)
    (h : extract_dependency_info_from_line line dep config [] = some m) :
    m.parent_dependency = none ∧ ∃ full, m.dependency_path = [full] := by
  simp only [extract_dependency_info_from_line] at h
  split at h
  · cases h
  · next gav _ =>
    simp only [List.isEmpty_nil, Bool.not_true, Bool.and_false, Bool.false_eq_true,
      if_false] at h
    split at h
    · rw [Option.some.injEq] at h
      subst h
      exact ⟨rfl, gav.1 ++ ":" ++ gav.2.1, rfl⟩
    · cases h

theorem treeLineMatches_nil_path (dep config line : String) (m : DependencyMatch)
    (h : m ∈ treeLineMatches dep config [] line) :
    m.parent_dependency = none ∧ ∃ full, m.dependency_path = [full] := by
  unfold treeLineMatches at h
  split at h
  · cases h
  · split at h
    · cases hm0 : extract_dependency_info_from_line line dep config [] with
      | none =>
        rw [hm0] at h
        cases h
      | some m0 =>
        rw [hm0] at h
        simp only [List.mem_singleton] at h
        subst h
        exact extract_nil_path line dep config m hm0
    · cases h

theorem scanStaticLine_parents (dep rel : String) (ln : Nat) (line : String)
    (m : DependencyMatch) (h : m ∈ scanStaticLine dep rel ln line) :
    m.parent_dependency = none ∧ m.parent_version = none := by
  unfold scanStaticLine at h
  rw [List.mem_append, List.mem_append] at h
  rcases h with (h | h) | h
  · split at h
    · rw [List.mem_singleton] at h
      subst h
      exact ⟨rfl, rfl⟩
    · cases h
  · split at h
    · rw [List.mem_singleton] at h
      subst h
      exact ⟨rfl, rfl⟩
    · cases h
  · split at h
    · rw [List.mem_singleton] at h
      subst h
      exact ⟨rfl, rfl⟩
    · cases h

theorem static_scanner_parents (files : List GradleFile) (dep : String)
    (m : DependencyMatch) (h : m ∈ analyze_gradle_files_directly files dep) :
    m.parent_dependency = none ∧ m.parent_version = none := by
  unfold analyze_gradle_files_directly at h
  rw [mem_foldl_append] at h
  rcases h with h | ⟨f, _, h⟩
  · cases h
  · unfold staticFileMatches at h
    split at h
    · cases h
    · rw [List.mem_flatMap] at h
      obtain ⟨p, _, hp⟩ := h
      exact scanStaticLine_parents dep f.relative_path (p.1 + 1) p.2 m hp

theorem configTreeMatches_failed (env : AnalyzeEnv) (dep c : String)
    (h : configFailed (env.outcome c) = true) :
    configTreeMatches env dep c = [] := by
  unfold configTreeMatches
  cases ho : env.outcome c with
  | completed rc out err =>
    rw [ho] at h
    unfold configFailed at h
    rw [Bool.not_eq_true'] at h
    simp [h]
  | timeoutExpired => rfl
  | fileNotFound => rfl
  | otherError msg => rfl

theorem storeGet_storeSet_self (s : Store) (k : String) (v : AnalysisResult) :
    storeGet? (storeSet s k v) k = some v := by
  unfold storeSet
  split
  · next h =>
    rw [List.any_eq_true] at h
    obtain ⟨p0, hp0, hkey⟩ := h
    unfold storeGet?
    rw [List.find?_map]
    have hpred : ((fun p : String × AnalysisResult => p.1 == k) ∘
        (fun p : String × AnalysisResult => if p.1 == k then (k, v) else p)) =
        (fun p => p.1 == k) := by
      funext p
      simp only [Function.comp]
      split
      · next hp => simp [hp]
      · rfl
    rw [hpred]
    have hsome : (s.find? (fun p => p.1 == k)).isSome := by
      rw [List.find?_isSome]
      exact ⟨p0, hp0, hkey⟩
    obtain ⟨q, hq⟩ := Option.isSome_iff_exists.mp hsome
    have hqk : (q.1 == k) = true := by simpa using List.find?_some hq
    rw [hq]
    simp only [Option.map_some']
    rw [if_pos hqk]
  · next h =>
    unfold storeGet?
    rw [List.find?_append]
    have hnone : s.find? (fun p => p.1 == k) = none := by
      rw [List.find?_eq_none]
      intro p hp hkey
      exact h (List.any_eq_true.mpr ⟨p, hp, hkey⟩)
    rw [hnone]
    simp

theorem storeGet_storeSet_ne (s : Store) (k : String) (v : AnalysisResult)
    (k' : String) (h : k ≠ k') :
    storeGet? (storeSet s k v) k' = storeGet? s k' := by
  unfold storeSet
  split
  · unfold storeGet?
    rw [List.find?_map]
    have hpred : ((fun p : String × AnalysisResult => p.1 == k') ∘
        (fun p : String × AnalysisResult => if p.1 == k then (k, v) else p)) =
        (fun p => p.1 == k') := by
      funext p
      simp only [Function.comp]
      split
      · next hp =>
        have hp2 : p.1 = k := by simpa using hp
        rw [hp2]
      · rfl
    rw [hpred]
    cases hf : s.find? (fun p => p.1 == k') with
    | none => simp
    | some q =>
      have hqk : (q.1 == k') = true := by simpa using List.find?_some hf
      have hne : (q.1 == k) = false := by
        rw [beq_eq_false_iff_ne]
        intro heq
        exact h (heq ▸ (by simpa using hqk))
      simp only [Option.map_some']
      rw [if_neg (by simp [hne])]
  · unfold storeGet?
    rw [List.find?_append]
    have h2 : [(k, v)].find? (fun p => p.1 == k') = none := by
      have hkk : (k == k') = false := beq_eq_false_iff_ne.mpr h
      simp [List.find?, hkk]
    rw [h2]
    simp

theorem storeGet_isSome_applyOp (s : Store) (op : StoreOp) (k : String)
    (h : (storeGet? s k).isSome) : (storeGet? (applyOp s op) k).isSome := by
  cases op with
  | submit repo dep id =>
    show (storeGet? (storeSet s id (initialResult repo dep id)) k).isSome
    by_cases hid : id = k
    · subst hid
      rw [storeGet_storeSet_self]
      rfl
    · rw [storeGet_storeSet_ne s id _ k hid]
      exact h
  | runJob id env =>
    cases hg : storeGet? s id with
    | none =>
      show (storeGet? (match storeGet? s id with
        | none => s
        | some r => storeSet s id (run_analysis r env)) k).isSome
      rw [hg]
      exact h
    | some r =>
      show (storeGet? (match storeGet? s id with
        | none => s
        | some r => storeSet s id (run_analysis r env)) k).isSome
      rw [hg]
      by_cases hid : id = k
      · subst hid
        rw [storeGet_storeSet_self]
        rfl
      · rw [storeGet_storeSet_ne s id _ k hid]
        exact h

theorem storeGet_isSome_foldl (ops : List StoreOp) :
    ∀ (s : Store) (k : String), (storeGet? s k).isSome →
      (storeGet? (ops.foldl applyOp s) k).isSome := by
  induction ops with
  | nil => intro s k h; exact h
  | cons op ops ih =>
    intro s k h
    rw [List.foldl_cons]
    exact ih _ k (storeGet_isSome_applyOp s op k h)

/-! ## Claims -/

/-- C1 (counterexample): against the claim, a tree line with positive
indentation that follows another dependency line still yields a match with
`parent_dependency = None` and `dependency_path = [full_name]` — the prior
dependency `org.foo:root` is not recorded as parent and the path is not
extended, because the parser's `current_path` is never populated. -/
theorem tree_parser_transitive_counterexample :
    parse_dependency_tree
        "org.foo:root:1.0\n    +--- org.apache:httpclient:4.5.13"
        "httpclient" "compileClasspath" =
      [⟨"gradle_tree_compileClasspath", "4.5.13", none, none,
        ["org.apache:httpclient"], "+--- org.apache:httpclient:4.5.13"⟩] ∧
    (("    +--- org.apache:httpclient:4.5.13" : String).data.takeWhile pyIsSpace).length
      = 4 :=
  ⟨rfl, rfl⟩

/-- C1 (amended): `parse_dependency_tree` initialises its path-tracking list
to `[]` and never updates it, so every produced match — indented or not — has
`parent_dependency = None` and a singleton `dependency_path = [full_name]`. -/
theorem tree_parser_no_transitive_tracking :
    ∀ (tree_output dep config : String) (m : DependencyMatch),
      m ∈ parse_dependency_tree tree_output dep config →
      m.parent_dependency = none ∧ ∃ full, m.dependency_path = [full] := by
  intro out dep config m hm
  simp only [parse_dependency_tree] at hm
  rw [mem_foldl_append] at hm
  rcases hm with hm | ⟨line, _, hm⟩
  · cases hm
  · exact treeLineMatches_nil_path dep config line m hm

/-- C1 witness: the amended theorem applied to a concrete indented tree line. -/
theorem tree_parser_no_transitive_tracking_witness :
    (⟨"gradle_tree_x", "4.5.13", none, none, ["org.apache:httpclient"],
      "+--- org.apache:httpclient:4.5.13"⟩ : DependencyMatch).parent_dependency = none ∧
    ∃ full, (⟨"gradle_tree_x", "4.5.13", none, none, ["org.apache:httpclient"],
      "+--- org.apache:httpclient:4.5.13"⟩ : DependencyMatch).dependency_path = [full] :=
  tree_parser_no_transitive_tracking
    "    +--- org.apache:httpclient:4.5.13" "httpclient" "x" _ (by decide)

/-- C2 (counterexample): when the clone succeeds but no descriptor files are
found, the job completes with the informational error but
`analysis_time_seconds` is left `None` — the early `return` skips the
terminal-state time write, contradicting the claim for this path. -/
theorem job_time_missing_counterexample :
    (run_analysis (initialResult "owner/repo" "dep" "job1")
        ⟨cloneOkEnv, [], noToolEnv, 0, 5⟩).status = "completed" ∧
    (run_analysis (initialResult "owner/repo" "dep" "job1")
        ⟨cloneOkEnv, [], noToolEnv, 0, 5⟩).analysis_time_seconds = none :=
  ⟨rfl, rfl⟩

/-- C2 (amended): every run of the background task ends with status exactly
`completed` or `failed` (never `processing`); `analysis_time_seconds` is set
to the non-negative elapsed time in the failed path and in the
completed-with-descriptors path, but remains `None` on the
no-descriptor-files completion path. -/
theorem job_terminal_state :
    ∀ (repo dep id : String) (env : JobEnv), env.startTime ≤ env.endTime →
      ((run_analysis (initialResult repo dep id) env).status = "completed" ∨
        (run_analysis (initialResult repo dep id) env).status = "failed") ∧
      (∀ e, (clone_repository env.clone).1 = Except.error e →
        (run_analysis (initialResult repo dep id) env).analysis_time_seconds =
            some (env.endTime - env.startTime) ∧
          (0 : ℚ) ≤ env.endTime - env.startTime) ∧
      (∀ es, (clone_repository env.clone).1 = Except.ok es → env.gradle_files = [] →
        (run_analysis (initialResult repo dep id) env).analysis_time_seconds = none) ∧
      (∀ es, (clone_repository env.clone).1 = Except.ok es → env.gradle_files ≠ [] →
        (run_analysis (initialResult repo dep id) env).analysis_time_seconds =
            some (env.endTime - env.startTime) ∧
          (0 : ℚ) ≤ env.endTime - env.startTime) := by
  intro repo dep id env ht
  have hnn : (0 : ℚ) ≤ env.endTime - env.startTime := by linarith
  refine ⟨?_, ?_, ?_, ?_⟩
  · cases hc : (clone_repository env.clone).1 with
    | error e =>
      rw [run_analysis_clone_error _ _ _ hc]
      exact Or.inr rfl
    | ok es =>
      cases hf : env.gradle_files with
      | nil =>
        rw [run_analysis_clone_ok_nofiles _ _ _ hc hf]
        exact Or.inl rfl
      | cons f fs =>
        rw [run_analysis_clone_ok_files _ _ _ hc (by simp [hf])]
        exact Or.inl rfl
  · intro e hc
    rw [run_analysis_clone_error _ _ _ hc]
    exact ⟨rfl, hnn⟩
  · intro es hc hf
    rw [run_analysis_clone_ok_nofiles _ _ _ hc hf]
    rfl
  · intro es hc hf
    rw [run_analysis_clone_ok_files _ _ _ hc hf]
    exact ⟨rfl, hnn⟩

/-- C2 witness: the amended theorem applied to a failing download, yielding a
set, non-negative elapsed time. -/
theorem job_terminal_state_witness :
    (run_analysis (initialResult "owner/repo" "dep" "job1")
        ⟨cloneFailEnv, [], noToolEnv, 0, 5⟩).analysis_time_seconds =
      some ((5 : ℚ) - 0) ∧ (0 : ℚ) ≤ (5 : ℚ) - 0 :=
  (job_terminal_state "owner/repo" "dep" "job1" ⟨cloneFailEnv, [], noToolEnv, 0, 5⟩
      (by norm_num)).2.1
    "Failed to download repository: HTTP 500" rfl

/-- C3 (counterexample): a single descriptor line on which both the
`<name>Version = "…"` and the `<name> = "…"` patterns match yields two
`DependencyMatch` records, not one — the scanner loop has no `break`, so an
earlier pattern's match does not stop later patterns. -/
theorem static_scanner_precedence_counterexample :
    (analyze_gradle_files_directly
        [⟨"build.gradle", some "fooVersion = \"1.0\" foo = \"2.0\""⟩] "foo").length = 2 ∧
    (pySplitLines "fooVersion = \"1.0\" foo = \"2.0\"").length = 1 :=
  ⟨rfl, rfl⟩

/-- C3 (amended): all three declaration patterns are applied to every line and
each pattern that matches contributes its own `DependencyMatch`, so one line
yields exactly as many records as patterns matching it — up to three, not at
most one. -/
theorem static_scanner_all_patterns_apply :
    ∀ (dep rel : String) (ln : Nat) (line : String),
      (scanStaticLine dep rel ln line).length =
          (tryPat1 dep line).toList.length + (tryPat2 dep line).toList.length +
            (tryPat3 dep line).toList.length ∧
        (scanStaticLine dep rel ln line).length ≤ 3 := by
  intro dep rel ln line
  unfold scanStaticLine
  cases tryPat1 dep line <;> cases tryPat2 dep line <;> cases tryPat3 dep line <;>
    simp [Option.toList]

/-- C4 (counterexample): two matches that differ in both `file_path` and
`current_version` — `("a", "b_c")` and `("a_b", "c")` — are nevertheless
collapsed into one record, because the dict key is the underscore-joined
string `"a_b_c"` for both; this falsifies the "only if" direction of the
claimed pair-keyed deduplication. -/
theorem dedup_key_counterexample :
    (merge_duplicate_matches
        [⟨"a", "b_c", none, none, ["p"], ""⟩, ⟨"a_b", "c", none, none, ["q"], ""⟩]).length
      = 1 ∧
    ¬(("a" : String) = "a_b" ∧ ("b_c" : String) = "c") :=
  ⟨rfl, by decide⟩

/-- C4 (amended): the deduplication key is the joined string
`file_path ++ "_" ++ current_version`: the number of output records equals the
number of distinct joined keys in the input, so matches agreeing on both
fields always merge, but distinct pairs whose joined strings coincide merge
as well. -/
theorem dedup_key_string_count :
    ∀ (L : List DependencyMatch),
      (merge_duplicate_matches L).length = ((L.map matchKey).dedup).length := by
  intro L
  have hnd := nodup_keys_foldl L [] (by simp)
  have hfin : ((L.foldl insertMerge []).map Prod.fst).toFinset =
      (L.map matchKey).toFinset := by
    ext k
    rw [List.mem_toFinset, List.mem_toFinset, mem_keys_foldl]
    simp
  have h1 : (merge_duplicate_matches L).length =
      ((L.foldl insertMerge []).map Prod.fst).length := by
    unfold merge_duplicate_matches
    rw [List.length_map, List.length_map]
  rw [h1, ← List.toFinset_card_of_nodup hnd, hfin, List.card_toFinset]

/-- C5 (counterexample): the surviving record carries the pair
`("x", "y_z")` of the first-seen match, yet its `dependency_path` is
`["q", "r"]`, taken from the second match whose pair `("x_y", "z")` is
different — so the merged path is not the longest among candidates with the
same `(file_path, current_version)` pair; candidates are grouped by the joined
string key instead. -/
theorem merge_key_stability_counterexample :
    merge_duplicate_matches
        [⟨"x", "y_z", none, none, ["p"], "c1"⟩,
         ⟨"x_y", "z", none, none, ["q", "r"], "c2"⟩] =
      [⟨"x", "y_z", none, none, ["q", "r"], "c1"⟩] ∧
    ¬(("x_y" : String) = "x" ∧ ("z" : String) = "y_z") :=
  ⟨rfl, by decide⟩

/-- C5 (amended): for every output record of `merge_duplicate_matches`, the
candidates sharing its joined string key form a non-empty list whose first
element is the base: the record keeps the base's `file_path`,
`current_version` and `line_context`, its `dependency_path` is one of the
candidates' paths and maximal in length among them, and each parent field is
truthy exactly when some candidate's is. -/
theorem merge_key_stable_by_string_key :
    ∀ (L : List DependencyMatch) (r : DependencyMatch),
      r ∈ merge_duplicate_matches L →
      ∃ c cs, cands (matchKey r) L = c :: cs ∧
        r.file_path = c.file_path ∧ r.current_version = c.current_version ∧
        r.line_context = c.line_context ∧
        (∀ m ∈ c :: cs, m.dependency_path.length ≤ r.dependency_path.length) ∧
        (∃ m ∈ c :: cs, r.dependency_path = m.dependency_path) ∧
        isTruthy r.parent_dependency =
          (c :: cs).any (fun m => isTruthy m.parent_dependency) ∧
        isTruthy r.parent_version =
          (c :: cs).any (fun m => isTruthy m.parent_version) := by
  intro L r hr
  obtain ⟨c, cs, hc, hfold⟩ := merge_mem_char L r hr
  refine ⟨c, cs, hc, ?_, ?_, ?_, ?_, ?_, ?_, ?_⟩
  · rw [hfold, foldl_mergeInto_file_path]
  · rw [hfold, foldl_mergeInto_current_version]
  · rw [hfold, foldl_mergeInto_line_context]
  · intro m hm
    rw [hfold]
    exact foldl_mergeInto_path_ge cs c m hm
  · rw [hfold]
    exact foldl_mergeInto_path_mem cs c
  · rw [hfold, foldl_mergeInto_pd_any]
  · rw [hfold, foldl_mergeInto_pv_any]

/-- C5 witness: the amended theorem applied to the singleton input
`[sampleMatch]`, whose only output record is its own (only) candidate. -/
theorem merge_key_stable_by_string_key_witness :
    ∃ c cs, cands (matchKey sampleMatch) [sampleMatch] = c :: cs ∧
      sampleMatch.file_path = c.file_path ∧
      sampleMatch.current_version = c.current_version ∧
      sampleMatch.line_context = c.line_context ∧
      (∀ m ∈ c :: cs, m.dependency_path.length ≤ sampleMatch.dependency_path.length) ∧
      (∃ m ∈ c :: cs, sampleMatch.dependency_path = m.dependency_path) ∧
      isTruthy sampleMatch.parent_dependency =
        (c :: cs).any (fun m => isTruthy m.parent_dependency) ∧
      isTruthy sampleMatch.parent_version =
        (c :: cs).any (fun m => isTruthy m.parent_version) :=
  merge_key_stable_by_string_key [sampleMatch] sampleMatch (by decide)

/-- C6 (confirmed): `merge_duplicate_matches` is idempotent — its output has
pairwise-distinct dict keys, and merging a list with distinct keys returns it
unchanged. -/
theorem merge_idempotent :
    ∀ (L : List DependencyMatch),
      merge_duplicate_matches (merge_duplicate_matches L) = merge_duplicate_matches L :=
  fun L => merge_of_nodup_keys _ (nodup_matchKey_merge L)

/-- C7 (confirmed): whenever the archive fetch fails — non-200 on both branch
requests, a raised network error, or a corrupt archive — `clone_repository`
raises, no scratch directory remains afterwards, and the background task
records status `failed` with the exception message in the job's `error`
field. -/
theorem fetch_failure_atomicity :
    ∀ (cEnv : CloneEnv) (files : List GradleFile) (aEnv : AnalyzeEnv) (t1 t2 : ℚ)
      (repo dep id e : String),
      (clone_repository cEnv).1 = Except.error e →
      (clone_repository cEnv).2 = false ∧
      (run_analysis (initialResult repo dep id) ⟨cEnv, files, aEnv, t1, t2⟩).status
        = "failed" ∧
      (run_analysis (initialResult repo dep id) ⟨cEnv, files, aEnv, t1, t2⟩).error
        = some e := by
  intro cEnv files aEnv t1 t2 repo dep id e hc
  have hra := run_analysis_clone_error (initialResult repo dep id)
    ⟨cEnv, files, aEnv, t1, t2⟩ e hc
  refine ⟨?_, ?_, ?_⟩
  · unfold clone_repository at hc ⊢
    cases hb : cloneBody cEnv with
    | mk res d =>
      cases res with
      | ok v =>
        rw [hb] at hc
        simp at hc
      | error e2 => cases d <;> rfl
  · rw [hra]
  · rw [hra]

/-- C7 witness: the theorem applied to a fetch that gets 404 on `main` and 500
on `master`. -/
theorem fetch_failure_atomicity_witness :
    (clone_repository cloneFailEnv).2 = false ∧
    (run_analysis (initialResult "o/r" "dep" "j")
        ⟨cloneFailEnv, [], noToolEnv, 0, 5⟩).status = "failed" ∧
    (run_analysis (initialResult "o/r" "dep" "j")
        ⟨cloneFailEnv, [], noToolEnv, 0, 5⟩).error =
      some "Failed to download repository: HTTP 500" :=
  fetch_failure_atomicity cloneFailEnv [] noToolEnv 0 5 "o/r" "dep" "j"
    "Failed to download repository: HTTP 500" rfl

/-- C8 (confirmed): when one of the three fixed configurations fails
(non-zero exit, timeout, missing executable, or any other caught exception),
the job still completes and its matches are exactly the merge of the other
configurations' tree matches and the static scan — the failing configuration
contributes nothing and aborts nothing. -/
theorem config_failure_isolation :
    ∀ (cEnv : CloneEnv) (files : List GradleFile) (aEnv : AnalyzeEnv) (t1 t2 : ℚ)
      (repo dep id c : String) (es : List String),
      c ∈ configurations → configFailed (aEnv.outcome c) = true →
      (clone_repository cEnv).1 = Except.ok es → files ≠ [] →
      (run_analysis (initialResult repo dep id) ⟨cEnv, files, aEnv, t1, t2⟩).status
        = "completed" ∧
      (run_analysis (initialResult repo dep id) ⟨cEnv, files, aEnv, t1, t2⟩).found_matches
        = merge_duplicate_matches
            (((configurations.filter (fun c2 => !(c2 == c))).foldl
                (fun acc c2 => acc ++ configTreeMatches aEnv dep c2) []) ++
              analyze_gradle_files_directly files dep) := by
  intro cEnv files aEnv t1 t2 repo dep id c es hcmem hcfail hclone hfiles
  have hra := run_analysis_clone_ok_files (initialResult repo dep id)
    ⟨cEnv, files, aEnv, t1, t2⟩ es hclone hfiles
  rw [hra]
  refine ⟨rfl, ?_⟩
  show analyze_gradle_dependencies aEnv files dep = _
  have hzero : configTreeMatches aEnv dep c = [] :=
    configTreeMatches_failed aEnv dep c hcfail
  have hcases : c = "compileClasspath" ∨ c = "runtimeClasspath" ∨
      c = "testCompileClasspath" := by
    simpa [configurations] using hcmem
  simp only [analyze_gradle_dependencies]
  rcases hcases with h | h | h <;> subst h
  · rw [show configurations.filter (fun c2 => !(c2 == "compileClasspath")) =
        ["runtimeClasspath", "testCompileClasspath"] from rfl]
    simp only [configurations, List.foldl_cons, List.foldl_nil, List.nil_append, hzero]
  · rw [show configurations.filter (fun c2 => !(c2 == "runtimeClasspath")) =
        ["compileClasspath", "testCompileClasspath"] from rfl]
    simp only [configurations, List.foldl_cons, List.foldl_nil, List.nil_append, hzero,
      List.append_nil]
  · rw [show configurations.filter (fun c2 => !(c2 == "testCompileClasspath")) =
        ["compileClasspath", "runtimeClasspath"] from rfl]
    simp only [configurations, List.foldl_cons, List.foldl_nil, List.nil_append, hzero,
      List.append_nil]

/-- C8 witness: the theorem applied to an environment where
`compileClasspath` times out while `runtimeClasspath` resolves and a
descriptor file is present. -/
theorem config_failure_isolation_witness :
    (run_analysis (initialResult "o/r" "mylib" "j")
        ⟨cloneOkEnv, sampleFiles, sampleAnalyzeEnv, 0, 5⟩).status = "completed" ∧
    (run_analysis (initialResult "o/r" "mylib" "j")
        ⟨cloneOkEnv, sampleFiles, sampleAnalyzeEnv, 0, 5⟩).found_matches
      = merge_duplicate_matches
          (((configurations.filter (fun c2 => !(c2 == "compileClasspath"))).foldl
              (fun acc c2 => acc ++ configTreeMatches sampleAnalyzeEnv "mylib" c2) []) ++
            analyze_gradle_files_directly sampleFiles "mylib") :=
  config_failure_isolation cloneOkEnv sampleFiles sampleAnalyzeEnv 0 5
    "o/r" "mylib" "j" "compileClasspath" [] (by decide) rfl rfl (by decide)

/-- C9 (confirmed): every match the static declaration scanner produces has
`parent_dependency = None` and `parent_version = None`; consequently, any
output record of the full analysis whose `parent_dependency` is truthy can
only have obtained it from a tree-parser match of some configuration. -/
theorem static_scanner_no_parent_fields :
    (∀ (files : List GradleFile) (dep : String) (m : DependencyMatch),
      m ∈ analyze_gradle_files_directly files dep →
      m.parent_dependency = none ∧ m.parent_version = none) ∧
    (∀ (env : AnalyzeEnv) (files : List GradleFile) (dep : String) (r : DependencyMatch),
      r ∈ analyze_gradle_dependencies env files dep →
      isTruthy r.parent_dependency = true →
      ∃ c ∈ configurations, ∃ m ∈ configTreeMatches env dep c,
        m.parent_dependency = r.parent_dependency) := by
  constructor
  · exact static_scanner_parents
  · intro env files dep r hr htr
    simp only [analyze_gradle_dependencies] at hr
    obtain ⟨c0, cs, hc, hfold⟩ := merge_mem_char _ r hr
    have hpd := foldl_mergeInto_pd_mem cs c0
    rw [← hfold] at hpd
    obtain ⟨m', hm', hpdeq⟩ := hpd
    have hm'in := hc ▸ hm'
    have hm'L := cands_subset _ _ m' hm'in
    rw [List.mem_append] at hm'L
    rw [hpdeq] at htr
    rcases hm'L with hTree | hStatic
    · rw [mem_foldl_append] at hTree
      rcases hTree with h0 | ⟨c, hcmem, hmc⟩
      · cases h0
      · exact ⟨c, hcmem, m', hmc, hpdeq.symm⟩
    · have hps := static_scanner_parents files dep m' hStatic
      rw [hps.1] at htr
      simp [isTruthy] at htr

/-- C9 witness: the first conjunct applied to a concrete descriptor file whose
scan produces one match. -/
theorem static_scanner_no_parent_fields_witness :
    (⟨"build.gradle", "1.0", none, none, ["foo:1.0"],
      "Line 1: foo = \"1.0\""⟩ : DependencyMatch).parent_dependency = none ∧
    (⟨"build.gradle", "1.0", none, none, ["foo:1.0"],
      "Line 1: foo = \"1.0\""⟩ : DependencyMatch).parent_version = none :=
  static_scanner_no_parent_fields.1
    [⟨"build.gradle", some "foo = \"1.0\""⟩] "foo" _ (by decide)

/-- C10 (confirmed): `start_analysis` returns the freshly generated job id
only after inserting the initial record (status `processing`, empty file list
and matches) under that id; since no operation ever removes a key, a status
query for that id after any sequence of further submissions and background
completions takes the success branch, never the 404 branch. -/
theorem submit_then_status_never_404 :
    ∀ (s0 : Store) (repo dep id : String) (ops : List StoreOp),
      (start_analysis s0 repo dep id).2.job_id = id ∧
      storeGet? (start_analysis s0 repo dep id).1 id =
        some ⟨repo, dep, id, "processing", [], [], none, none⟩ ∧
      ∃ r, get_analysis_status (ops.foldl applyOp (start_analysis s0 repo dep id).1) id =
        Except.ok r := by
  intro s0 repo dep id ops
  refine ⟨rfl, ?_, ?_⟩
  · show storeGet? (storeSet s0 id (initialResult repo dep id)) id = _
    rw [storeGet_storeSet_self]
    rfl
  · have h0 : (storeGet? (start_analysis s0 repo dep id).1 id).isSome := by
      show (storeGet? (storeSet s0 id (initialResult repo dep id)) id).isSome
      rw [storeGet_storeSet_self]
      rfl
    have h1 := storeGet_isSome_foldl ops _ id h0
    cases hg : storeGet? (ops.foldl applyOp (start_analysis s0 repo dep id).1) id with
    | none => rw [hg] at h1; cases h1
    | some r =>
      refine ⟨r, ?_⟩
      unfold get_analysis_status
      rw [hg]
